import Mathlib

/-!
Verification of the bursty-traffic-generator repository.

The development shallowly embeds the two source files:
  * `vr_burst_sender.py` — header building (`build_header`) and burst
    fragmentation (`fragment_burst`);
  * `burst_generators.py` — trace loading (`TraceFileBurstGenerator._load_trace`),
    the bounded logistic sampler (`LogisticRandomVariable.sample`) and the VR
    burst model (`VrBurstGenerator`).

Python integers are embedded as `ℤ` (or `ℕ` for byte values), Python floats as
`ℚ`.  Python's floor division `//` and modulo `%` agree with Lean's Euclidean
`Int` division and modulo whenever the divisor is positive; every division in
the embedded code happens after a guard forcing the divisor to be at least the
header length, so the two semantics coincide on all reachable inputs.
Randomness is embedded by passing the stream of drawn values explicitly, and
the transcendental helpers (`math.log`, `math.pow`) are abstracted as function
parameters: no verified claim depends on their values.
-/

/-- Wire-format constant `SEQTS_SIZE_FRAG_HEADER_LEN` from `vr_burst_sender.py`. -/
def SEQTS_SIZE_FRAG_HEADER_LEN : ℤ := 24

/-- The four `ValueError` exits of `fragment_burst`, in source order. -/
inductive FragError where
  | burstTooSmall
  | fragmentTooSmall
  | secondToLastTooSmall
  | lastTooSmall
deriving DecidableEq, Repr

/-- Embedding of `fragment_burst` from `vr_burst_sender.py` (lines 41-85).
Returns the burst payload size and the list of fragment payload lengths, or
the `ValueError` the Python function raises.  Python truthiness tests
(`if second_to_last_size:`) are embedded as `≠ 0`; the merge condition uses
`> 0` exactly as the source does. -/
def fragment_burst (burst_size fragment_size : ℤ) : Except FragError (ℤ × List ℤ) :=
  if burst_size < SEQTS_SIZE_FRAG_HEADER_LEN then .error .burstTooSmall
  else if fragment_size < SEQTS_SIZE_FRAG_HEADER_LEN then .error .fragmentTooSmall
  else
    let num_full_frags0 := burst_size / fragment_size
    let last_frag_size0 := burst_size % fragment_size
    let second_to_last_size0 : ℤ := if 0 < num_full_frags0 then fragment_size else 0
    let num_full_frags := if 0 < num_full_frags0 then num_full_frags0 - 1 else num_full_frags0
    let second_to_last_size :=
      if 0 < second_to_last_size0 ∧ 0 < last_frag_size0 ∧
          last_frag_size0 < SEQTS_SIZE_FRAG_HEADER_LEN then
        fragment_size + last_frag_size0 - SEQTS_SIZE_FRAG_HEADER_LEN
      else second_to_last_size0
    let last_frag_size :=
      if 0 < second_to_last_size0 ∧ 0 < last_frag_size0 ∧
          last_frag_size0 < SEQTS_SIZE_FRAG_HEADER_LEN then
        SEQTS_SIZE_FRAG_HEADER_LEN
      else last_frag_size0
    if second_to_last_size ≠ 0 ∧ second_to_last_size < SEQTS_SIZE_FRAG_HEADER_LEN then
      .error .secondToLastTooSmall
    else if last_frag_size ≠ 0 ∧ last_frag_size < SEQTS_SIZE_FRAG_HEADER_LEN then
      .error .lastTooSmall
    else
      let full_payload := fragment_size - SEQTS_SIZE_FRAG_HEADER_LEN
      let fragments :=
        List.replicate num_full_frags.toNat full_payload
          ++ (if second_to_last_size ≠ 0 then
                [second_to_last_size - SEQTS_SIZE_FRAG_HEADER_LEN] else [])
          ++ (if last_frag_size ≠ 0 then
                [last_frag_size - SEQTS_SIZE_FRAG_HEADER_LEN] else [])
      let total_frags : ℤ := fragments.length
      .ok (burst_size - SEQTS_SIZE_FRAG_HEADER_LEN * total_frags, fragments)

example : fragment_burst 2500 1200 = .ok (2428, [1176, 1176, 76]) := rfl
example : fragment_burst 1210 1200 = .ok (1162, [1162, 0]) := rfl
example : fragment_burst 48 30 = .ok (0, [0, 0]) := rfl
example : fragment_burst 25 24 = .error .secondToLastTooSmall := rfl

set_option maxHeartbeats 1600000 in
/-- Full case analysis of `fragment_burst` on its precondition domain, in terms
of the quotient and remainder of `burst_size` by `fragment_size`. -/
theorem fragment_burst_cases (bs fs : ℤ) (hbs : 24 ≤ bs) (hfs : 24 ≤ fs) :
    fragment_burst bs fs =
      if fs ≤ bs then
        if bs % fs = 0 then
          .ok (bs - 24 * (bs / fs),
            List.replicate (bs / fs - 1).toNat (fs - 24) ++ [fs - 24])
        else if bs % fs < 24 then
          if fs + bs % fs - 24 < 24 then .error .secondToLastTooSmall
          else
            .ok (bs - 24 * (bs / fs + 1),
              List.replicate (bs / fs - 1).toNat (fs - 24) ++ [fs + bs % fs - 48, 0])
        else
          .ok (bs - 24 * (bs / fs + 1),
            List.replicate (bs / fs - 1).toNat (fs - 24) ++ [fs - 24, bs % fs - 24])
      else .ok (bs - 24, [bs - 24]) := by
  have hfs0 : (0:ℤ) < fs := by omega
  by_cases hle : fs ≤ bs
  · have hq1 : 1 ≤ bs / fs := by
      have h := Int.ediv_le_ediv hfs0 hle
      rwa [Int.ediv_self (by omega)] at h
    have hr0 : 0 ≤ bs % fs := Int.emod_nonneg bs (by omega)
    have hrfs : bs % fs < fs := Int.emod_lt_of_pos bs hfs0
    have htn : ((bs / fs - 1).toNat : ℤ) = bs / fs - 1 := Int.toNat_of_nonneg (by omega)
    rw [if_pos hle]
    simp only [fragment_burst, SEQTS_SIZE_FRAG_HEADER_LEN]
    rw [if_neg (by omega : ¬ bs < 24), if_neg (by omega : ¬ fs < 24)]
    split_ifs <;>
      first
        | rfl
        | (exfalso; omega)
        | (simp only [Except.ok.injEq, Prod.mk.injEq, List.append_assoc,
            List.singleton_append, List.cons_append, List.nil_append,
            List.append_nil, List.length_append, List.length_replicate,
            List.length_cons, List.length_nil]
           refine ⟨by push_cast [htn]; omega, ?_⟩
           congr 1 <;> simp only [List.cons.injEq, and_true] <;> omega)
  · have hq0 : bs / fs = 0 := Int.ediv_eq_zero_of_lt (by omega) (by omega)
    have hr0 : bs % fs = bs := Int.emod_eq_of_lt (by omega) (by omega)
    rw [if_neg hle]
    simp only [fragment_burst, SEQTS_SIZE_FRAG_HEADER_LEN, hq0, hr0]
    rw [if_neg (by omega : ¬ bs < 24), if_neg (by omega : ¬ fs < 24)]
    split_ifs <;>
      first
        | rfl
        | (exfalso; omega)
        | (simp only [Int.toNat_zero, List.replicate_zero, List.nil_append,
            List.append_nil, Except.ok.injEq, Prod.mk.injEq,
            List.length_singleton, Nat.cast_one, and_true, List.length_nil]
           omega)

/-- If `fs ≤ bs` then the Euclidean quotient `bs / fs` is at least one. -/
lemma one_le_ediv_of_le (bs fs : ℤ) (hfs0 : 0 < fs) (hle : fs ≤ bs) : 1 ≤ bs / fs := by
  have h := Int.ediv_le_ediv hfs0 hle
  rwa [Int.ediv_self (by omega)] at h

/-- C1: Fragmentation conservation — whenever `fragment_burst` returns normally
on `burst_size ≥ 24` and `fragment_size ≥ 24`, the fragment payloads plus 24
bytes of header per fragment sum to `burst_size`, and the returned
`burst_payload` equals the payload sum. -/
theorem fragment_burst_conservation (bs fs p : ℤ) (frags : List ℤ)
    (hbs : 24 ≤ bs) (hfs : 24 ≤ fs)
    (hok : fragment_burst bs fs = .ok (p, frags)) :
    frags.sum + 24 * (frags.length : ℤ) = bs ∧ p = frags.sum := by
  have hfs0 : (0:ℤ) < fs := by omega
  have hqr := Int.ediv_add_emod bs fs
  have hr0 : 0 ≤ bs % fs := Int.emod_nonneg bs (by omega)
  have hrfs : bs % fs < fs := Int.emod_lt_of_pos bs hfs0
  rw [fragment_burst_cases bs fs hbs hfs] at hok
  split_ifs at hok with h1 h2 h3 h4
  · -- fs ≤ bs, remainder zero
    have htn : ((bs / fs - 1).toNat : ℤ) = bs / fs - 1 :=
      Int.toNat_of_nonneg (by have := one_le_ediv_of_le bs fs hfs0 h1; omega)
    simp only [Except.ok.injEq, Prod.mk.injEq] at hok
    obtain ⟨hp, hf⟩ := hok
    subst hp hf
    constructor
    · simp only [List.sum_append, List.sum_replicate, nsmul_eq_mul, List.sum_cons,
        List.sum_nil, add_zero, List.length_append, List.length_replicate,
        List.length_cons, List.length_nil]
      push_cast [htn]
      linear_combination hqr - h2
    · simp only [List.sum_append, List.sum_replicate, nsmul_eq_mul, List.sum_cons,
        List.sum_nil, add_zero]
      push_cast [htn]
      linear_combination h2 - hqr
  · -- fs ≤ bs, small remainder, merged
    have htn : ((bs / fs - 1).toNat : ℤ) = bs / fs - 1 :=
      Int.toNat_of_nonneg (by have := one_le_ediv_of_le bs fs hfs0 h1; omega)
    simp only [Except.ok.injEq, Prod.mk.injEq] at hok
    obtain ⟨hp, hf⟩ := hok
    subst hp hf
    constructor
    · simp only [List.sum_append, List.sum_replicate, nsmul_eq_mul, List.sum_cons,
        List.sum_nil, add_zero, List.length_append, List.length_replicate,
        List.length_cons, List.length_nil]
      push_cast [htn]
      linear_combination hqr
    · simp only [List.sum_append, List.sum_replicate, nsmul_eq_mul, List.sum_cons,
        List.sum_nil, add_zero]
      push_cast [htn]
      linear_combination -hqr
  · -- fs ≤ bs, large remainder
    have htn : ((bs / fs - 1).toNat : ℤ) = bs / fs - 1 :=
      Int.toNat_of_nonneg (by have := one_le_ediv_of_le bs fs hfs0 h1; omega)
    simp only [Except.ok.injEq, Prod.mk.injEq] at hok
    obtain ⟨hp, hf⟩ := hok
    subst hp hf
    constructor
    · simp only [List.sum_append, List.sum_replicate, nsmul_eq_mul, List.sum_cons,
        List.sum_nil, add_zero, List.length_append, List.length_replicate,
        List.length_cons, List.length_nil]
      push_cast [htn]
      linear_combination hqr
    · simp only [List.sum_append, List.sum_replicate, nsmul_eq_mul, List.sum_cons,
        List.sum_nil, add_zero]
      push_cast [htn]
      linear_combination -hqr
  · -- bs < fs, single fragment
    simp only [Except.ok.injEq, Prod.mk.injEq] at hok
    obtain ⟨hp, hf⟩ := hok
    subst hp hf
    constructor
    · simp only [List.sum_cons, List.sum_nil, add_zero, List.length_cons,
        List.length_nil]
      push_cast
      ring
    · simp only [List.sum_cons, List.sum_nil, add_zero]

/-- Witness for C1 at `fragment_burst 2500 1200 = .ok (2428, [1176, 1176, 76])`. -/
theorem fragment_burst_conservation_witness :
    ([1176, 1176, 76] : List ℤ).sum
        + 24 * ((([1176, 1176, 76] : List ℤ).length : ℤ)) = 2500
      ∧ (2428 : ℤ) = ([1176, 1176, 76] : List ℤ).sum :=
  fragment_burst_conservation 2500 1200 2428 [1176, 1176, 76]
    (by norm_num) (by norm_num) rfl

/-- C2 counterexample: `fragment_burst 48 30` returns two fragments whose
payloads are `[0, 0]` — the first fragment has zero payload although it is not
the final fragment, refuting the claim that only the possible final
header-only fragment can have zero payload. -/
theorem fragment_burst_zero_payload_counterexample :
    fragment_burst 48 30 = .ok (0, [0, 0])
      ∧ ([0, 0] : List ℤ).headI = 0
      ∧ 1 < ([0, 0] : List ℤ).length :=
  ⟨rfl, rfl, by norm_num⟩

/-- C2 (amended): every returned fragment's total wire size
(`payload + header_len`) is at least `header_len`; and when the fragment
capacity is at least `2 × header_len`, no fragment other than the final one
has zero payload. -/
theorem fragment_burst_wire_min (bs fs p : ℤ) (frags : List ℤ)
    (hbs : 24 ≤ bs) (hfs : 24 ≤ fs)
    (hok : fragment_burst bs fs = .ok (p, frags)) :
    (∀ x ∈ frags, 24 ≤ x + 24)
      ∧ (48 ≤ fs → ∀ x ∈ frags.dropLast, 0 < x) := by
  have hfs0 : (0:ℤ) < fs := by omega
  have hqr := Int.ediv_add_emod bs fs
  have hr0 : 0 ≤ bs % fs := Int.emod_nonneg bs (by omega)
  have hrfs : bs % fs < fs := Int.emod_lt_of_pos bs hfs0
  rw [fragment_burst_cases bs fs hbs hfs] at hok
  split_ifs at hok with h1 h2 h3 h4
  · simp only [Except.ok.injEq, Prod.mk.injEq] at hok
    obtain ⟨hp, hf⟩ := hok
    subst hf
    constructor
    · intro x hx
      rcases List.mem_append.mp hx with hx | hx
      · have := (List.eq_of_mem_replicate hx); omega
      · simp only [List.mem_singleton] at hx; omega
    · intro h48 x hx
      rw [List.dropLast_concat] at hx
      have := List.eq_of_mem_replicate hx
      omega
  · simp only [Except.ok.injEq, Prod.mk.injEq] at hok
    obtain ⟨hp, hf⟩ := hok
    subst hf
    have hsplit : List.replicate (bs / fs - 1).toNat (fs - 24)
        ++ [fs + bs % fs - 48, 0]
        = (List.replicate (bs / fs - 1).toNat (fs - 24)
            ++ [fs + bs % fs - 48]) ++ [0] := by simp
    constructor
    · intro x hx
      rcases List.mem_append.mp hx with hx | hx
      · have := List.eq_of_mem_replicate hx; omega
      · rcases List.mem_cons.mp hx with hx | hx
        · omega
        · simp only [List.mem_singleton] at hx; omega
    · intro h48 x hx
      rw [hsplit, List.dropLast_concat] at hx
      rcases List.mem_append.mp hx with hx | hx
      · have := List.eq_of_mem_replicate hx; omega
      · simp only [List.mem_singleton] at hx; omega
  · simp only [Except.ok.injEq, Prod.mk.injEq] at hok
    obtain ⟨hp, hf⟩ := hok
    subst hf
    have hsplit : List.replicate (bs / fs - 1).toNat (fs - 24)
        ++ [fs - 24, bs % fs - 24]
        = (List.replicate (bs / fs - 1).toNat (fs - 24)
            ++ [fs - 24]) ++ [bs % fs - 24] := by simp
    constructor
    · intro x hx
      rcases List.mem_append.mp hx with hx | hx
      · have := List.eq_of_mem_replicate hx; omega
      · rcases List.mem_cons.mp hx with hx | hx
        · omega
        · simp only [List.mem_singleton] at hx; omega
    · intro h48 x hx
      rw [hsplit, List.dropLast_concat] at hx
      rcases List.mem_append.mp hx with hx | hx
      · have := List.eq_of_mem_replicate hx; omega
      · simp only [List.mem_singleton] at hx; omega
  · simp only [Except.ok.injEq, Prod.mk.injEq] at hok
    obtain ⟨hp, hf⟩ := hok
    subst hf
    constructor
    · intro x hx
      simp only [List.mem_singleton] at hx
      omega
    · intro h48 x hx
      simp at hx

/-- Witness for the amended C2 at `fragment_burst 2500 1200`. -/
theorem fragment_burst_wire_min_witness :
    (∀ x ∈ ([1176, 1176, 76] : List ℤ), 24 ≤ x + 24)
      ∧ (48 ≤ (1200:ℤ) → ∀ x ∈ ([1176, 1176, 76] : List ℤ).dropLast, 0 < x) :=
  fragment_burst_wire_min 2500 1200 2428 [1176, 1176, 76]
    (by norm_num) (by norm_num) rfl

/-- C3: the undersized-trailing-fragment merge rule — when a second-to-last
full fragment was reserved (`fs ≤ bs`) and the remainder is strictly between 0
and the header length, a normal return has a header-only final fragment and a
second-to-last fragment of total size `fs + remainder − 24` (payload
`fs + remainder − 48`); and concretely
`fragment_burst 1210 1200 = .ok (1162, [1162, 0])`. -/
theorem fragment_burst_merge_rule (bs fs p : ℤ) (frags : List ℤ)
    (hbs : 24 ≤ bs) (hfs : 24 ≤ fs) (hfull : fs ≤ bs)
    (hr1 : 0 < bs % fs) (hr2 : bs % fs < 24)
    (hok : fragment_burst bs fs = .ok (p, frags)) :
    frags = List.replicate (bs / fs - 1).toNat (fs - 24)
        ++ [fs + bs % fs - 48, 0]
      ∧ frags.getLast? = some 0
      ∧ fragment_burst 1210 1200 = .ok (1162, [1162, 0]) := by
  rw [fragment_burst_cases bs fs hbs hfs] at hok
  split_ifs at hok <;>
    first
      | (exfalso; omega)
      | (simp only [Except.ok.injEq, Prod.mk.injEq] at hok
         obtain ⟨hp, hf⟩ := hok
         subst hf
         refine ⟨rfl, ?_, rfl⟩
         have hsplit : List.replicate (bs / fs - 1).toNat (fs - 24)
             ++ [fs + bs % fs - 48, 0]
             = (List.replicate (bs / fs - 1).toNat (fs - 24)
                 ++ [fs + bs % fs - 48]) ++ [0] := by simp
         rw [hsplit, List.getLast?_concat])
      | (simp at hok)

/-- Witness for C3 at `fragment_burst 1210 1200`. -/
theorem fragment_burst_merge_rule_witness :
    ([1162, 0] : List ℤ) = List.replicate ((1210:ℤ) / 1200 - 1).toNat (1200 - 24)
        ++ [1200 + (1210:ℤ) % 1200 - 48, 0]
      ∧ ([1162, 0] : List ℤ).getLast? = some 0
      ∧ fragment_burst 1210 1200 = .ok (1162, [1162, 0]) :=
  fragment_burst_merge_rule 1210 1200 1162 [1162, 0]
    (by norm_num) (by norm_num) (by norm_num) (by decide) (by decide) rfl

/-- C9: with both preconditions satisfied, the only `ValueError` that
`fragment_burst` can still raise is the second-to-last-fragment check; in
particular the `Last fragment would be too small` branch is unreachable. -/
theorem fragment_burst_no_last_error (bs fs : ℤ) (hbs : 24 ≤ bs) (hfs : 24 ≤ fs)
    (e : FragError) (herr : fragment_burst bs fs = .error e) :
    e = .secondToLastTooSmall := by
  rw [fragment_burst_cases bs fs hbs hfs] at herr
  split_ifs at herr <;> simp_all

/-- Witness for C9 at `fragment_burst 25 24`. -/
theorem fragment_burst_no_last_error_witness :
    fragment_burst 25 24 = .error .secondToLastTooSmall
      ∧ FragError.secondToLastTooSmall = .secondToLastTooSmall :=
  ⟨rfl, fragment_burst_no_last_error 25 24 (by norm_num) (by norm_num)
    .secondToLastTooSmall rfl⟩

/-- Big-endian encoding of the value `v` into `w` bytes, exactly what
`struct.pack` emits for one unsigned big-endian field of width `w`. -/
def beBytes : Nat → Nat → List Nat
  | 0, _ => []
  | w + 1, v => beBytes w (v / 256) ++ [v % 256]

/-- The unsigned value denoted by a big-endian byte list. -/
def beVal (bytes : List Nat) : Nat := bytes.foldl (fun acc b => acc * 256 + b) 0

/-- Embedding of `build_header` from `vr_burst_sender.py` (lines 31-38):
`struct.Struct("!HHQIQ").pack(frag_seq, total_frags, burst_payload, burst_seq,
timestamp)`.  The timestamp captured from `time.time_ns()` is passed in by the
caller. -/
def build_header (frag_seq total_frags burst_payload burst_seq timestamp : Nat) :
    List Nat :=
  beBytes 2 frag_seq ++ beBytes 2 total_frags ++ beBytes 8 burst_payload
    ++ beBytes 4 burst_seq ++ beBytes 8 timestamp

lemma beBytes_length (w v : Nat) : (beBytes w v).length = w := by
  induction w generalizing v with
  | zero => rfl
  | succ w ih => simp [beBytes, ih]

lemma beBytes_lt (w v : Nat) : ∀ b ∈ beBytes w v, b < 256 := by
  induction w generalizing v with
  | zero => simp [beBytes]
  | succ w ih =>
    intro b hb
    simp only [beBytes, List.mem_append, List.mem_singleton] at hb
    rcases hb with hb | hb
    · exact ih _ b hb
    · subst hb; exact Nat.mod_lt _ (by norm_num)

lemma beVal_beBytes (w v : Nat) : beVal (beBytes w v) = v % 256 ^ w := by
  induction w generalizing v with
  | zero => simp [beBytes, beVal, Nat.mod_one]
  | succ w ih =>
    have hfold : beVal (beBytes w (v / 256) ++ [v % 256])
        = beVal (beBytes w (v / 256)) * 256 + v % 256 := by
      simp [beVal, List.foldl_append]
    have hdm : v / 256 % 256 ^ w = v % 256 ^ (w + 1) / 256 := by
      rw [Nat.div_mod_eq_mod_mul_div, pow_succ]
      ring_nf
    have hlow : v % 256 = v % 256 ^ (w + 1) % 256 :=
      (Nat.mod_mod_of_dvd v (dvd_pow_self 256 (Nat.succ_ne_zero w))).symm
    rw [beBytes, hfold, ih, hdm, hlow]
    omega

/-- C8: for in-range field values, `build_header` emits exactly 24 bytes,
laid out big-endian as 16-bit `frag_seq`, 16-bit `total_frags`, 64-bit
`burst_payload`, 32-bit `burst_seq`, 64-bit `timestamp`, in that order; every
byte is in `[0, 256)`. -/
theorem build_header_layout (frag_seq total_frags burst_payload burst_seq timestamp : Nat)
    (h1 : frag_seq < 2 ^ 16) (h2 : total_frags < 2 ^ 16)
    (h3 : burst_payload < 2 ^ 64) (h4 : burst_seq < 2 ^ 32)
    (h5 : timestamp < 2 ^ 64) :
    (build_header frag_seq total_frags burst_payload burst_seq timestamp).length = 24
      ∧ beVal ((build_header frag_seq total_frags burst_payload burst_seq timestamp).take 2)
          = frag_seq
      ∧ beVal (((build_header frag_seq total_frags burst_payload burst_seq timestamp).drop 2).take 2)
          = total_frags
      ∧ beVal (((build_header frag_seq total_frags burst_payload burst_seq timestamp).drop 4).take 8)
          = burst_payload
      ∧ beVal (((build_header frag_seq total_frags burst_payload burst_seq timestamp).drop 12).take 4)
          = burst_seq
      ∧ beVal ((build_header frag_seq total_frags burst_payload burst_seq timestamp).drop 16)
          = timestamp
      ∧ ∀ b ∈ build_header frag_seq total_frags burst_payload burst_seq timestamp,
          b < 256 := by
  have e1 : (2:Nat) ^ 16 = 256 ^ 2 := by norm_num
  have e2 : (2:Nat) ^ 64 = 256 ^ 8 := by norm_num
  have e3 : (2:Nat) ^ 32 = 256 ^ 4 := by norm_num
  have m1 : frag_seq % 256 ^ 2 = frag_seq := Nat.mod_eq_of_lt (by omega)
  have m2 : total_frags % 256 ^ 2 = total_frags := Nat.mod_eq_of_lt (by omega)
  have m3 : burst_payload % 256 ^ 8 = burst_payload := Nat.mod_eq_of_lt (by omega)
  have m4 : burst_seq % 256 ^ 4 = burst_seq := Nat.mod_eq_of_lt (by omega)
  have m5 : timestamp % 256 ^ 8 = timestamp := Nat.mod_eq_of_lt (by omega)
  have hn : build_header frag_seq total_frags burst_payload burst_seq timestamp
      = beBytes 2 frag_seq ++ (beBytes 2 total_frags ++ (beBytes 8 burst_payload
          ++ (beBytes 4 burst_seq ++ beBytes 8 timestamp))) := by
    simp [build_header, List.append_assoc]
  have lA := beBytes_length 2 frag_seq
  have lB := beBytes_length 2 total_frags
  have lC := beBytes_length 8 burst_payload
  have lD := beBytes_length 4 burst_seq
  have lE := beBytes_length 8 timestamp
  have hd2 : (build_header frag_seq total_frags burst_payload burst_seq timestamp).drop 2
      = beBytes 2 total_frags ++ (beBytes 8 burst_payload
          ++ (beBytes 4 burst_seq ++ beBytes 8 timestamp)) := by
    rw [hn, List.drop_left' lA]
  have hd4 : (build_header frag_seq total_frags burst_payload burst_seq timestamp).drop 4
      = beBytes 8 burst_payload ++ (beBytes 4 burst_seq ++ beBytes 8 timestamp) := by
    have : (4:Nat) = 2 + 2 := by norm_num
    rw [this, ← List.drop_drop, hd2, List.drop_left' lB]
  have hd12 : (build_header frag_seq total_frags burst_payload burst_seq timestamp).drop 12
      = beBytes 4 burst_seq ++ beBytes 8 timestamp := by
    have : (12:Nat) = 4 + 8 := by norm_num
    rw [this, ← List.drop_drop, hd4, List.drop_left' lC]
  have hd16 : (build_header frag_seq total_frags burst_payload burst_seq timestamp).drop 16
      = beBytes 8 timestamp := by
    have : (16:Nat) = 12 + 4 := by norm_num
    rw [this, ← List.drop_drop, hd12, List.drop_left' lD]
  refine ⟨?_, ?_, ?_, ?_, ?_, ?_, ?_⟩
  · simp [build_header, beBytes_length]
  · rw [hn, List.take_left' lA, beVal_beBytes, m1]
  · rw [hd2, List.take_left' lB, beVal_beBytes, m2]
  · rw [hd4, List.take_left' lC, beVal_beBytes, m3]
  · rw [hd12, List.take_left' lD, beVal_beBytes, m4]
  · rw [hd16, beVal_beBytes, m5]
  · intro b hb
    rw [hn] at hb
    simp only [List.mem_append] at hb
    rcases hb with hb | hb | hb | hb | hb <;> exact beBytes_lt _ _ b hb

/-- Witness for C8 at concrete field values. -/
theorem build_header_layout_witness :
    (build_header 1 2 300 7 5).length = 24
      ∧ beVal ((build_header 1 2 300 7 5).take 2) = 1
      ∧ beVal (((build_header 1 2 300 7 5).drop 2).take 2) = 2
      ∧ beVal (((build_header 1 2 300 7 5).drop 4).take 8) = 300
      ∧ beVal (((build_header 1 2 300 7 5).drop 12).take 4) = 7
      ∧ beVal ((build_header 1 2 300 7 5).drop 16) = 5
      ∧ ∀ b ∈ build_header 1 2 300 7 5, b < 256 :=
  build_header_layout 1 2 300 7 5 (by norm_num) (by norm_num) (by norm_num)
    (by norm_num) (by norm_num)

/-- The four VR application profile names (`VrAppName` in
`burst_generators.py`). -/
inductive VrAppName where
  | VirusPopper
  | Minecraft
  | GoogleEarthVrCities
  | GoogleEarthVrTour
deriving DecidableEq, Repr

/-- `_VrModelCoefficients`: `alpha`/`beta` always present,
`gamma`/`delta`/`epsilon` optional. -/
structure VrModelCoefficients where
  alpha : ℚ
  beta : ℚ
  gamma : Option ℚ
  delta : Option ℚ
  epsilon : Option ℚ
deriving DecidableEq, Repr

/-- The `_VR_MODELS` calibration table (lines 116-145).  The Python float
literals are carried as exact decimal rationals; the verified claims depend
only on which optional fields are populated, not on the numeric values. -/
def VR_MODELS : VrAppName → VrModelCoefficients
  | .VirusPopper =>
    { alpha := 0.17843005544386825, beta := -0.24033549,
      gamma := some 0.03720502322046791, delta := some 0.014333111298430356,
      epsilon := some 0.17636808 }
  | .Minecraft =>
    { alpha := 0.18570635904452573, beta := -0.18721216,
      gamma := some 0.07132669841811076, delta := some 0.024192743507827373,
      epsilon := some 0.22666163 }
  | .GoogleEarthVrCities =>
    { alpha := 0.259684566301378, beta := -0.25390119,
      gamma := some 0.034571656202610615, delta := some 0.008953037116942649,
      epsilon := some 0.3119082 }
  | .GoogleEarthVrTour =>
    { alpha := 0.25541435742159037, beta := -0.20308171,
      gamma := some 0.03468230656563422, delta := some 0.010559650431826953,
      epsilon := some 0.27560183 }

/-- State of `LogisticRandomVariable`: location, scale and bound (the bound
defaults to `INFINITE_BOUND = 1e307` in the source when not supplied). -/
structure LogisticRandomVariable where
  location : ℚ
  scale : ℚ
  bound : ℚ
deriving DecidableEq, Repr

/-- `LogisticRandomVariable.INFINITE_BOUND` (`1e307`). -/
def INFINITE_BOUND : ℚ := 10 ^ 307

/-- Embedding of `LogisticRandomVariable.sample` (lines 160-167).  The stream
`us` of `random.random()` draws is passed explicitly; `logit u` stands for the
transcendental `math.log(u / (1.0 - u))`, abstracted as a function parameter
(no claim depends on its values).  The Python `while True` loop becomes
structural recursion on the draw stream, returning `none` if the stream is
exhausted before a candidate is accepted. -/
def LogisticRandomVariable.sample (rv : LogisticRandomVariable)
    (logit : ℚ → ℚ) : List ℚ → Option ℚ
  | [] => none
  | u :: us =>
    if u = 0 ∨ u = 1 then rv.sample logit us
    else
      let candidate := rv.location + rv.scale * logit u
      if |candidate - rv.location| ≤ rv.bound then some candidate
      else rv.sample logit us

/-- Python `int()` truncation toward zero. -/
def truncToZero (x : ℚ) : ℤ := if 0 ≤ x then ⌊x⌋ else ⌈x⌉

/-- Embedding of `LogisticRandomVariable.sample_int`: `int(self.sample())`. -/
def LogisticRandomVariable.sample_int (rv : LogisticRandomVariable)
    (logit : ℚ → ℚ) (us : List ℚ) : Option ℤ :=
  (rv.sample logit us).map truncToZero

/-- C6: bounded sampling — every value returned by
`LogisticRandomVariable.sample` satisfies `|sample − location| ≤ bound`. -/
theorem sample_bounded (rv : LogisticRandomVariable) (logit : ℚ → ℚ)
    (us : List ℚ) (c : ℚ) (h : rv.sample logit us = some c) :
    |c - rv.location| ≤ rv.bound := by
  induction us with
  | nil => simp [LogisticRandomVariable.sample] at h
  | cons u us ih =>
    simp only [LogisticRandomVariable.sample] at h
    split_ifs at h with h1 h2
    · exact ih h
    · simp only [Option.some.injEq] at h
      subst h
      exact h2
    · exact ih h

/-- Witness for C6: a sampler with location 0, scale 0, bound 1 accepts the
first draw `1/2`. -/
theorem sample_bounded_witness : |(0:ℚ) - 0| ≤ 1 :=
  sample_bounded ⟨0, 0, 1⟩ (fun _ => 0) [1/2] 0
    (by simp [LogisticRandomVariable.sample])

/-- Embedding of `VrBurstGenerator.generate_burst` (lines 227-231):
`(max(frame_rv.sample_int(), 24), max(period_rv.sample(), 0.0))`, with the two
samplers' draw streams supplied explicitly. -/
def VrBurstGenerator.generate_burst (frame_rv period_rv : LogisticRandomVariable)
    (logit : ℚ → ℚ) (us1 us2 : List ℚ) : Option (ℤ × ℚ) :=
  match frame_rv.sample_int logit us1, period_rv.sample logit us2 with
  | some s, some t => some (max s 24, max t 0)
  | _, _ => none

/-- C5: model floor — every pair returned by `VrBurstGenerator.generate_burst`
has `size_bytes ≥ 24` and `interval_seconds ≥ 0`, for any sampler
configuration (hence for every valid profile, frame rate and target rate). -/
theorem generate_burst_floor (frame_rv period_rv : LogisticRandomVariable)
    (logit : ℚ → ℚ) (us1 us2 : List ℚ) (size : ℤ) (period : ℚ)
    (h : VrBurstGenerator.generate_burst frame_rv period_rv logit us1 us2
        = some (size, period)) :
    24 ≤ size ∧ 0 ≤ period := by
  unfold VrBurstGenerator.generate_burst at h
  split at h
  · simp only [Option.some.injEq, Prod.mk.injEq] at h
    obtain ⟨hs, hp⟩ := h
    subst hs hp
    exact ⟨le_max_right _ _, le_max_right _ _⟩
  · simp at h

/-- Witness for C5 with both samplers at location 0, scale 0, bound 1 and the
single draw `1/2`. -/
theorem generate_burst_floor_witness : (24:ℤ) ≤ 24 ∧ (0:ℚ) ≤ 0 :=
  generate_burst_floor ⟨0, 0, 1⟩ ⟨0, 0, 1⟩ (fun _ => 0) [1/2] [1/2] 24 0
    (by simp [VrBurstGenerator.generate_burst, LogisticRandomVariable.sample_int,
      LogisticRandomVariable.sample, truncToZero])

/-- The distinct `ValueError` exits of `VrBurstGenerator.__init__` and
`VrBurstGenerator._setup_model`. -/
inductive VrSetupError where
  | invalidFrameRate
  | invalidRate
  | missingGamma
  | missingDeltaEpsilon
deriving DecidableEq, Repr

/-- Embedding of `VrBurstGenerator.__init__` validation plus `_setup_model`
(lines 181-222), producing the frame-size and inter-frame-interval samplers.
`powf a b` stands for the transcendental `math.pow(a, b)`, abstracted as a
function parameter (no claim depends on its values). -/
def VrBurstGenerator.setup_model (powf : ℚ → ℚ → ℚ) (app_name : VrAppName)
    (frame_rate target_data_rate_bps : ℚ) :
    Except VrSetupError (LogisticRandomVariable × LogisticRandomVariable) :=
  if frame_rate ≠ 30 ∧ frame_rate ≠ 60 then .error .invalidFrameRate
  else if target_data_rate_bps ≤ 0 then .error .invalidRate
  else
    let coeffs := VR_MODELS app_name
    let target_mbps := target_data_rate_bps / 1000000
    let frame_size_avg := target_data_rate_bps / 8 / frame_rate
    let ifi_avg := 1 / frame_rate
    let frame_dispersion := coeffs.alpha * powf target_mbps coeffs.beta
    let frame_scale := frame_size_avg * frame_dispersion
    let frame_rv : LogisticRandomVariable :=
      ⟨frame_size_avg, frame_scale, frame_size_avg⟩
    if frame_rate = 60 then
      match coeffs.gamma with
      | none => .error .missingGamma
      | some g => .ok (frame_rv, ⟨ifi_avg, ifi_avg * g, ifi_avg⟩)
    else
      match coeffs.delta, coeffs.epsilon with
      | some d, some e =>
        .ok (frame_rv, ⟨ifi_avg, ifi_avg * (d * powf target_mbps e), ifi_avg⟩)
      | _, _ => .error .missingDeltaEpsilon

/-- C10: all four shipped profiles define all five coefficients, so for every
application name, frame rate in {30, 60} and positive target rate the model
setup succeeds; the missing-gamma and missing-delta/epsilon branches are
unreachable. -/
theorem vr_models_complete (powf : ℚ → ℚ → ℚ) (app : VrAppName)
    (frame_rate target : ℚ) (hf : frame_rate = 30 ∨ frame_rate = 60)
    (ht : 0 < target) :
    (VR_MODELS app).gamma.isSome = true
      ∧ (VR_MODELS app).delta.isSome = true
      ∧ (VR_MODELS app).epsilon.isSome = true
      ∧ ∃ rvs, VrBurstGenerator.setup_model powf app frame_rate target
          = .ok rvs := by
  have hnotle : ¬ target ≤ 0 := not_le.mpr ht
  cases app <;> rcases hf with rfl | rfl <;>
    (refine ⟨rfl, rfl, rfl, ?_⟩
     simp only [VrBurstGenerator.setup_model, VR_MODELS]
     rw [if_neg (by norm_num), if_neg hnotle]
     exact ⟨_, rfl⟩)

/-- Witness for C10: the VirusPopper profile at 60 fps and 20 Mbps. -/
theorem vr_models_complete_witness :
    (VR_MODELS .VirusPopper).gamma.isSome = true
      ∧ (VR_MODELS .VirusPopper).delta.isSome = true
      ∧ (VR_MODELS .VirusPopper).epsilon.isSome = true
      ∧ ∃ rvs, VrBurstGenerator.setup_model (fun _ _ => 1) .VirusPopper 60 20000000
          = .ok rvs :=
  vr_models_complete (fun _ _ => 1) .VirusPopper 60 20000000
    (Or.inr rfl) (by norm_num)

/-- The retention loop of `TraceFileBurstGenerator._load_trace` (lines 74-77)
over already-parsed `(burst_size, period)` rows: a row is appended when the
cumulative start time `cum` has reached `start_time`, and its period is then
added to `trace_duration`.  The Python `for` loop accumulating forward is
embedded as recursion over the remaining rows. -/
def retainRows (start_time : ℚ) : ℚ → List (ℤ × ℚ) → List (ℤ × ℚ) × ℚ
  | _, [] => ([], 0)
  | cum, (burst_size, period) :: rest =>
    if start_time ≤ cum then
      ((burst_size, period) :: (retainRows start_time (cum + period) rest).1,
        (retainRows start_time (cum + period) rest).2 + period)
    else retainRows start_time (cum + period) rest

/-- Cumulative start times of a row list: entry `i` is `cum` plus the sum of
the periods of the rows before row `i`. -/
def cumStarts (cum : ℚ) : List (ℤ × ℚ) → List ℚ
  | [] => []
  | (_, period) :: rest => cum :: cumStarts (cum + period) rest

lemma retainRows_fst (st : ℚ) (rows : List (ℤ × ℚ)) : ∀ cum : ℚ,
    (retainRows st cum rows).1
      = ((rows.zip (cumStarts cum rows)).filter
          (fun rc => decide (st ≤ rc.2))).map Prod.fst := by
  induction rows with
  | nil => intro cum; simp [retainRows, cumStarts]
  | cons head rest ih =>
    intro cum
    obtain ⟨sz, p⟩ := head
    simp only [retainRows, cumStarts, List.zip_cons_cons, List.filter_cons,
      decide_eq_true_eq]
    split_ifs with h
    · simp [ih]
    · exact ih _

lemma retainRows_snd (st : ℚ) (rows : List (ℤ × ℚ)) : ∀ cum : ℚ,
    (retainRows st cum rows).2
      = ((retainRows st cum rows).1.map Prod.snd).sum := by
  induction rows with
  | nil => intro cum; simp [retainRows]
  | cons head rest ih =>
    intro cum
    obtain ⟨sz, p⟩ := head
    simp only [retainRows]
    split_ifs with h
    · simp [ih]
      ring
    · exact ih _

/-- C4: start-time filtering — a parsed trace row is retained exactly when the
cumulative sum of the periods of the preceding rows has reached `start_time`,
retained rows keep file order, `trace_duration` is the sum of the retained
rows' periods; and the two concrete scenarios from the specification. -/
theorem trace_start_filter (rows : List (ℤ × ℚ)) (start_time : ℚ) :
    ((retainRows start_time 0 rows).1
        = ((rows.zip (cumStarts 0 rows)).filter
            (fun rc => decide (start_time ≤ rc.2))).map Prod.fst)
      ∧ (retainRows start_time 0 rows).2
          = ((retainRows start_time 0 rows).1.map Prod.snd).sum
      ∧ retainRows 0 0 [((100:ℤ), (0:ℚ)), (5000, 0.02), (300, 0.01)]
          = ([((100:ℤ), (0:ℚ)), (5000, 0.02), (300, 0.01)], 0.03)
      ∧ retainRows 0.015 0 [((100:ℤ), (0:ℚ)), (5000, 0.02), (300, 0.01)]
          = ([((300:ℤ), (0.01:ℚ))], 0.01) := by
  refine ⟨retainRows_fst start_time rows 0, retainRows_snd start_time rows 0, ?_, ?_⟩
  · norm_num [retainRows]
  · norm_num [retainRows]

/-- Numeric value of a list of decimal digit characters. -/
def digitsVal (l : List Char) : ℕ := l.foldl (fun a c => a * 10 + (c.toNat - 48)) 0

/-- Model of Python `int()` on stripped cells: an optional sign followed by at
least one decimal digit. -/
def parseInt? (s : String) : Option ℤ :=
  match s.data with
  | '-' :: rest =>
    if rest ≠ [] ∧ rest.all Char.isDigit then some (-(digitsVal rest : ℤ)) else none
  | '+' :: rest =>
    if rest ≠ [] ∧ rest.all Char.isDigit then some (digitsVal rest : ℤ) else none
  | rest =>
    if rest ≠ [] ∧ rest.all Char.isDigit then some (digitsVal rest : ℤ) else none

/-- Model of Python `float()` on stripped cells, restricted to the plain
decimal forms `[+|-] digits [. digits]` that trace files use (no exponent,
`inf` or `nan`): returns the exact rational value, or `none` when the string
is not of this shape. -/
def parseRat? (s : String) : Option ℚ :=
  let sd : ℚ × List Char :=
    match s.data with
    | '-' :: rest => (-1, rest)
    | '+' :: rest => (1, rest)
    | rest => (1, rest)
  let intPart := sd.2.takeWhile (fun c => c ≠ '.')
  let tailPart := sd.2.dropWhile (fun c => c ≠ '.')
  let fracPart : Option (List Char) :=
    match tailPart with
    | [] => some []
    | _ :: tail => if tail.all (fun c => c ≠ '.') then some tail else none
  match fracPart with
  | none => none
  | some fp =>
    if intPart.all Char.isDigit ∧ fp.all Char.isDigit
        ∧ (intPart ≠ [] ∨ fp ≠ []) then
      some (sd.1 * ((digitsVal intPart : ℚ)
        + (digitsVal fp : ℚ) / 10 ^ fp.length))
    else none

/-- Model of Python `str.strip()`: drop whitespace from both ends. -/
def stripStr (s : String) : String :=
  String.mk (((s.data.dropWhile Char.isWhitespace).reverse.dropWhile
    Char.isWhitespace).reverse)

/-- Python `str.startswith("#")`: the first character is `#`. -/
def startsWithHash (s : String) : Bool :=
  match s.data with
  | '#' :: _ => true
  | _ => false

/-- The cells of a CSV row after Python's `col.strip()`. -/
def strippedRow (row : List String) : List String := row.map (fun c => stripStr c)

/-- The skip conditions of `_load_trace` (lines 56-61): empty row, empty or
`#`-prefixed first stripped cell, or all cells empty. -/
def isSkippedRow (row : List String) : Bool :=
  row.isEmpty
    || (strippedRow row).headD "" == ""
    || startsWithHash ((strippedRow row).headD "")
    || (strippedRow row).all (fun c => c == "")

/-- Row parsing of `_load_trace` (lines 63-65): `int(stripped_row[0])` and
`float(stripped_row[1])`; a missing second column is the `IndexError` caught
by the same handler, so it also yields `none`. -/
def parseRow? (row : List String) : Option (ℤ × ℚ) :=
  match parseInt? ((strippedRow row).headD ""),
      ((strippedRow row)[1]?).bind parseRat? with
  | some size, some period => some (size, period)
  | _, _ => none

/-- A non-skipped row is malformed when parsing fails or the parsed period is
negative — exactly the two `ValueError` raises of lines 66-73, both of which
name the offending row number. -/
def malformedRow (row : List String) : Bool :=
  match parseRow? row with
  | none => true
  | some (_, period) => decide (period < 0)

/-- The three outcomes of `TraceFileBurstGenerator._load_trace`: the loaded
bursts with `trace_duration`, a `ValueError` naming a row number (malformed
row or negative period), or the final empty-trace `ValueError`. -/
inductive LoadResult where
  | ok : List (ℤ × ℚ) → ℚ → LoadResult
  | parseError : ℕ → LoadResult
  | emptyTrace : LoadResult
deriving DecidableEq, Repr

/-- Embedding of the row loop of `_load_trace` (lines 51-81): `row_num` is the
1-based row counter, `cum` the cumulative start time, `bursts`/`dur` the
accumulated queue and `trace_duration`. -/
def load_trace (start_time : ℚ) :
    List (List String) → ℕ → ℚ → List (ℤ × ℚ) → ℚ → LoadResult
  | [], _, _, bursts, dur => if bursts.isEmpty then .emptyTrace else .ok bursts dur
  | row :: rest, row_num, cum, bursts, dur =>
    if isSkippedRow row then load_trace start_time rest (row_num + 1) cum bursts dur
    else
      match parseRow? row with
      | none => .parseError row_num
      | some (size, period) =>
        if period < 0 then .parseError row_num
        else
          load_trace start_time rest (row_num + 1) (cum + period)
            (if start_time ≤ cum then bursts ++ [(size, period)] else bursts)
            (if start_time ≤ cum then dur + period else dur)

/-- `TraceFileBurstGenerator._load_trace` on the rows of a trace file. -/
def TraceFileBurstGenerator_load (rows : List (List String)) (start_time : ℚ) :
    LoadResult :=
  load_trace start_time rows 1 0 [] 0

/-- The parsed rows of an error-free trace: skipped rows removed, the rest
parsed. -/
def parsedRows (rows : List (List String)) : List (ℤ × ℚ) :=
  rows.filterMap (fun row => if isSkippedRow row then none else parseRow? row)

example : isSkippedRow ["# c"] = true := rfl
example : isSkippedRow [] = true := rfl
example : isSkippedRow [" ", " "] = true := rfl
example : isSkippedRow ["100", "0.5"] = false := rfl
example : malformedRow ["abc", "1"] = true := rfl
example : malformedRow ["100"] = true := rfl
example : TraceFileBurstGenerator_load [["# c"], ["abc", "1"]] 0
    = .parseError 2 := rfl
example : TraceFileBurstGenerator_load [["# c"]] 0 = .emptyTrace := rfl

lemma load_trace_first_error (st : ℚ) (rows : List (List String)) :
    ∀ (n : ℕ) (cum : ℚ) (acc : List (ℤ × ℚ)) (dur : ℚ) (i : ℕ) (row : List String),
    rows[i]? = some row →
    isSkippedRow row = false →
    malformedRow row = true →
    (∀ j r, j < i → rows[j]? = some r →
      isSkippedRow r = true ∨ malformedRow r = false) →
    load_trace st rows n cum acc dur = .parseError (n + i) := by
  induction rows with
  | nil =>
    intro n cum acc dur i row hget hact hmal hbefore
    simp at hget
  | cons row0 rest ih =>
    intro n cum acc dur i row hget hact hmal hbefore
    cases i with
    | zero =>
      rw [List.getElem?_cons_zero, Option.some.injEq] at hget
      subst hget
      cases hp : parseRow? row0 with
      | none => simp [load_trace, hact, hp]
      | some sp =>
        obtain ⟨sz, p⟩ := sp
        have hneg : p < 0 := by
          simpa [malformedRow, hp] using hmal
        simp [load_trace, hact, hp, hneg]
    | succ j =>
      rw [List.getElem?_cons_succ] at hget
      have hbefore' : ∀ k r, k < j → rest[k]? = some r →
          isSkippedRow r = true ∨ malformedRow r = false := by
        intro k r hk hr
        exact hbefore (k + 1) r (by omega) (by rwa [List.getElem?_cons_succ])
      have hn : n + 1 + j = n + (j + 1) := by omega
      cases hsk0 : isSkippedRow row0 with
      | true =>
        rw [show load_trace st (row0 :: rest) n cum acc dur
            = load_trace st rest (n + 1) cum acc dur from by
              simp [load_trace, hsk0],
          ih (n + 1) cum acc dur j row hget hact hmal hbefore', hn]
      | false =>
        rcases hbefore 0 row0 (by omega) (by rw [List.getElem?_cons_zero]) with
          hsk | hok
        · rw [hsk0] at hsk
          exact absurd hsk (by simp)
        · cases hp : parseRow? row0 with
          | none => rw [malformedRow, hp] at hok; simp at hok
          | some sp =>
            obtain ⟨sz, p⟩ := sp
            have hp0 : ¬ p < 0 := by
              simpa [malformedRow, hp] using hok
            rw [show load_trace st (row0 :: rest) n cum acc dur
                = load_trace st rest (n + 1) (cum + p)
                    (if st ≤ cum then acc ++ [(sz, p)] else acc)
                    (if st ≤ cum then dur + p else dur) from by
                  simp [load_trace, hsk0, hp, hp0],
              ih (n + 1) (cum + p) _ _ j row hget hact hmal hbefore', hn]

lemma load_trace_wellformed (st : ℚ) (rows : List (List String)) :
    ∀ (n : ℕ) (cum : ℚ) (acc : List (ℤ × ℚ)) (dur : ℚ),
    (∀ row ∈ rows, isSkippedRow row = true
        ∨ (isSkippedRow row = false
            ∧ ∃ sz p, parseRow? row = some (sz, p) ∧ 0 ≤ p)) →
    load_trace st rows n cum acc dur =
      (if (acc ++ (retainRows st cum (parsedRows rows)).1).isEmpty
       then .emptyTrace
       else .ok (acc ++ (retainRows st cum (parsedRows rows)).1)
         (dur + (retainRows st cum (parsedRows rows)).2)) := by
  induction rows with
  | nil =>
    intro n cum acc dur h
    simp [load_trace, parsedRows, retainRows]
  | cons row0 rest ih =>
    intro n cum acc dur h
    have hrest : ∀ row ∈ rest, isSkippedRow row = true
        ∨ (isSkippedRow row = false
            ∧ ∃ sz p, parseRow? row = some (sz, p) ∧ 0 ≤ p) :=
      fun row hr => h row (List.mem_cons_of_mem _ hr)
    rcases h row0 (List.mem_cons_self _ _) with hsk | ⟨hact, sz, p, hp, hp0⟩
    · have hparsed : parsedRows (row0 :: rest) = parsedRows rest := by
        simp [parsedRows, hsk]
      rw [show load_trace st (row0 :: rest) n cum acc dur
          = load_trace st rest (n + 1) cum acc dur from by
            simp [load_trace, hsk],
        ih (n + 1) cum acc dur hrest, hparsed]
    · have hparsed : parsedRows (row0 :: rest) = (sz, p) :: parsedRows rest := by
        simp [parsedRows, hact, hp]
      have hlt : ¬ p < 0 := not_lt.mpr hp0
      rw [show load_trace st (row0 :: rest) n cum acc dur
          = load_trace st rest (n + 1) (cum + p)
              (if st ≤ cum then acc ++ [(sz, p)] else acc)
              (if st ≤ cum then dur + p else dur) from by
            simp [load_trace, hact, hp, hlt],
        ih (n + 1) (cum + p) _ _ hrest, hparsed]
      by_cases hc : st ≤ cum
      · rw [if_pos hc, if_pos hc]
        rw [show retainRows st cum ((sz, p) :: parsedRows rest)
            = ((sz, p) :: (retainRows st (cum + p) (parsedRows rest)).1,
                (retainRows st (cum + p) (parsedRows rest)).2 + p) from by
              simp [retainRows, hc]]
        have hl : acc ++ [(sz, p)]
              ++ (retainRows st (cum + p) (parsedRows rest)).1
            = acc ++ ((sz, p)
              :: (retainRows st (cum + p) (parsedRows rest)).1) := by
          simp
        have hd : dur + p + (retainRows st (cum + p) (parsedRows rest)).2
            = dur + ((retainRows st (cum + p) (parsedRows rest)).2 + p) := by
          ring
        rw [hl, hd]
      · rw [if_neg hc, if_neg hc]
        rw [show retainRows st cum ((sz, p) :: parsedRows rest)
            = retainRows st (cum + p) (parsedRows rest) from by
              simp [retainRows, hc]]

/-- C7: trace load error behaviour.  Part 1: if a retained (or any) non-comment
row is malformed — unparsable size, unparsable or missing period, or negative
period — and it is the first such row, loading fails with a parse error naming
that row's 1-based number.  Part 2: when every row is either a
comment/blank row or parses with a non-negative period, comment rows are
ignored without error and loading fails with the empty-trace error exactly
when no row survives the `start_time` filter, otherwise returning the
retained rows and their total duration. -/
theorem trace_load_errors (rows : List (List String)) (st : ℚ) :
    (∀ i row, rows[i]? = some row → isSkippedRow row = false →
        malformedRow row = true →
        (∀ j r, j < i → rows[j]? = some r →
          isSkippedRow r = true ∨ malformedRow r = false) →
        TraceFileBurstGenerator_load rows st = .parseError (i + 1))
      ∧ ((∀ row ∈ rows, isSkippedRow row = true
            ∨ (isSkippedRow row = false
                ∧ ∃ sz p, parseRow? row = some (sz, p) ∧ 0 ≤ p)) →
          TraceFileBurstGenerator_load rows st =
            if (retainRows st 0 (parsedRows rows)).1.isEmpty then .emptyTrace
            else .ok (retainRows st 0 (parsedRows rows)).1
              (retainRows st 0 (parsedRows rows)).2) := by
  constructor
  · intro i row hget hact hmal hbefore
    have h := load_trace_first_error st rows 1 0 [] 0 i row hget hact hmal hbefore
    rwa [Nat.add_comm] at h
  · intro h
    have h2 := load_trace_wellformed st rows 1 0 [] 0 h
    simpa using h2

/-- Witness for C7: the comment row is skipped and the malformed second row is
reported as row 2. -/
theorem trace_load_errors_witness :
    TraceFileBurstGenerator_load [["# c"], ["abc", "1"]] 0 = .parseError 2 :=
  (trace_load_errors [["# c"], ["abc", "1"]] 0).1 1 ["abc", "1"] rfl rfl rfl
    (fun j r hj hr => by
      obtain rfl : j = 0 := by omega
      rw [List.getElem?_cons_zero, Option.some.injEq] at hr
      subst hr
      exact Or.inl rfl)
